import Mathlib

/-!
Verification of the `McpSessionManager` session/connection lifecycle manager
(the repository's two near-duplicate sources:
`src/unnamed/part_000` — later design with a timestamp salt — and
`src/nodes/McpClient/McpSessionManager.ts` — earlier design without one).

The TypeScript class is shallowly embedded:
* strings are lists of UTF-16 code units (`List Nat`, matching `charCodeAt`);
* JavaScript 32-bit signed integer coercion (`hash & hash`, `<<`) is `toInt32`
  on `Int`;
* the per-handle mutable fields become the record `MSess`, each method a pure
  state-transformer; external outcomes (liveness probe, handshake, transport
  close) are oracle booleans;
* the cooperative (single-threaded, run-to-completion-between-awaits)
  concurrency of `connect` is a small-step system `Cfg`/`Act`/`applyAct` whose
  atomic steps are exactly the code segments between `await` points.
-/

namespace McpSessionManager

/-! ## Session-id derivation (`generateSessionId`, part_000 lines 47–68) -/

/-- Fuelled base-`b` digit expansion, most significant digit first
(the digit list produced by JavaScript `Number.prototype.toString(b)`). -/
def natToBaseAux (b : Nat) : Nat → Nat → List Nat
  | 0, _ => []
  | fuel + 1, n => if n < b then [n] else natToBaseAux b fuel (n / b) ++ [n % b]

/-- Digits of `n` in base `b`, most significant first (`[n]` when `n < b`,
hence `[0]` for `0`, as in JavaScript). -/
def natToBase (b n : Nat) : List Nat := natToBaseAux b (n + 1) n

/-- Code unit of a base-36 digit: `0`–`9` then lowercase `a`–`z`,
as produced by `Number.prototype.toString(36)`. -/
def digitCode36 (d : Nat) : Nat := if d < 10 then 48 + d else 87 + d

/-- Code units of `n.toString(36)`. -/
def base36Str (n : Nat) : List Nat := (natToBase 36 n).map digitCode36

/-- Code units of the decimal rendering of `n` (template-literal `${n}`). -/
def decStr (n : Nat) : List Nat := (natToBase 10 n).map (fun d => 48 + d)

/-- JavaScript `ToInt32`: reduce an integer into `[-2^31, 2^31)`. -/
def toInt32 (x : Int) : Int := (x + 2147483648) % 4294967296 - 2147483648

/-- One iteration of the hash loop:
`hash = ((hash << 5) - hash) + char; hash = hash & hash;`.
`hash << 5` coerces to 32 bits, the sum is exact in a float64, and
`hash & hash` coerces the result back to 32 bits. -/
def jsHashStep (h : Int) (c : Nat) : Int := toInt32 (toInt32 (h * 32) - h + (c : Int))

/-- The 32-bit string hash of `generateSessionId` over a list of code units. -/
def jsHash (l : List Nat) : Int := l.foldl jsHashStep 0

/-- Code units of the literal `mcp_session_`. -/
def mcpSessionTag : List Nat := [109, 99, 112, 95, 115, 101, 115, 115, 105, 111, 110, 95]

/-- Code units of `,"timestamp":` — the serialized form of a present
`timestamp` member, which `JSON.stringify` places last because the
`connectionConfig` type literal declares it last. -/
def tsKeyCodes : List Nat := [44, 34, 116, 105, 109, 101, 115, 116, 97, 109, 112, 34, 58]

/-- The argument of `generateSessionId`: the serialization of every member
except `timestamp` is kept opaque in `base` (everything of
`JSON.stringify(connectionConfig)` up to but excluding the optional
`,"timestamp":…` member and the closing brace), and the optional `timestamp`
salt is explicit. -/
structure ConnConfig where
  base : List Nat
  timestamp : Option Nat
deriving DecidableEq

/-- `JSON.stringify(connectionConfig)`: the opaque prefix, then the
`timestamp` member when present (absent members are omitted by
`JSON.stringify`), then the closing brace (code 125). -/
def serializeConfig (c : ConnConfig) : List Nat :=
  match c.timestamp with
  | some t => c.base ++ tsKeyCodes ++ decStr t ++ [125]
  | none => c.base ++ [125]

/-- Line 58 of part_000: `const timestamp = connectionConfig.timestamp || Date.now();`.
A salt of `0` is falsy, so it falls back to the current time exactly like an
absent salt. -/
def effectiveTimestamp (ts : Option Nat) (now : Nat) : Nat :=
  match ts with
  | some t => if t = 0 then now else t
  | none => now

/-- `McpSessionManager.generateSessionId` of part_000 (lines 47–68):
stringify the config, pick the salt or the current time, hash
`` `${configStr}_${timestamp}` ``, and return
`` `mcp_session_${Math.abs(hash).toString(36)}_${timestamp.toString(36)}` ``
as a list of code units. `Date.now()` is the explicit argument `now`. -/
def generateSessionId (c : ConnConfig) (now : Nat) : List Nat :=
  let configStr := serializeConfig c
  let timestamp := effectiveTimestamp c.timestamp now
  let combined := configStr ++ [95] ++ decStr timestamp
  let hash := jsHash combined
  mcpSessionTag ++ base36Str hash.natAbs ++ [95] ++ base36Str timestamp

/-- `McpSessionManager.generateSessionId` of the earlier design
(`McpSessionManager.ts` lines 47–65): no timestamp member, the id is a pure
function of the serialized config. -/
def generateSessionIdV1 (configStr : List Nat) : List Nat :=
  mcpSessionTag ++ base36Str (jsHash configStr).natAbs

/-- Reassembling the base-36 digit list gives back the number. -/
def evalBase36 (l : List Nat) : Nat := l.foldl (fun acc d => acc * 36 + d) 0

/-- The segment of a code-unit list after its last underscore (code 95). For a
session id this is the `timestamp.toString(36)` suffix. -/
def tailSeg (l : List Nat) : List Nat :=
  (l.reverse.takeWhile (fun x => x ≠ 95)).reverse

/-! ## The per-handle state machine (part_000), sequential view

Each method of `McpSessionManager` becomes a pure state transformer on
`MSess`. Clients and transports are opaque `Nat` identities. External
outcomes (the `listTools` liveness probe, the `client.connect` handshake,
`transport.close`) are oracle booleans; `Date.now()` is an explicit `now`
argument. -/

/-- Errors a `connect` call can surface: the wrapper
`Failed to connect MCP session …: <cause>` around the underlying handshake
cause (line 149), or the bare `Failed to establish MCP connection`
(line 101) when `this.client` is null after a fulfilled attempt. -/
inductive MErr
  | connectFail (cause : Nat)
  | noClient
deriving DecidableEq

deriving instance DecidableEq for Except

/-- The mutable fields of a `McpSessionManager` instance (part_000 lines
10–16). `connPromise` is the `connectionPromise` field as a sequential
caller observes it: `none` when null, otherwise the settled outcome of the
recorded attempt. -/
structure MSess where
  client : Option Nat
  transport : Option Nat
  isConnected : Bool
  connPromise : Option (Except MErr Unit)
  lastUsed : Nat
  cleanupTimer : Bool
deriving DecidableEq

/-- `cleanup` (lines 204–222): cancel the timer, best-effort close the
transport (a close failure is caught and only logged), clear both
references, mark disconnected. Returns the new state and whether a
`transport.close()` call was made. -/
def cleanup (s : MSess) (closeFails : Bool) : MSess × Bool :=
  let s := { s with cleanupTimer := false }
  match s.transport with
  | some _ =>
    -- `await this.transport.close()`; when `closeFails` the rejection is
    -- caught and logged, and execution continues identically.
    let _ := closeFails
    ({ s with transport := none, client := none, isConnected := false }, true)
  | none => ({ s with client := none, isConnected := false }, false)

/-- `isSessionConnected` (lines 177–179). -/
def isSessionConnected (s : MSess) : Bool := s.isConnected && s.client.isSome

/-- `validateConnection` (lines 181–191): rejects when client or transport is
missing, otherwise succeeds iff the `listTools` probe does. -/
def validateConnection (s : MSess) (listToolsOk : Bool) : Bool :=
  s.client.isSome && s.transport.isSome && listToolsOk

/-- `getClient` (lines 153–167): if connected, probe liveness; on success
touch `lastUsed` and return the cached client, on failure clear
`isConnected` and `client` (the transport is left as is) and return null;
if not connected return null. Never throws, never reconnects. -/
def getClient (s : MSess) (listToolsOk : Bool) (now : Nat) : MSess × Option Nat :=
  if s.isConnected ∧ s.client.isSome then
    if validateConnection s listToolsOk then
      ({ s with lastUsed := now }, s.client)
    else
      ({ s with isConnected := false, client := none }, none)
  else (s, none)

/-- `getClientSync` (lines 169–175): return the cached client iff connected,
touching `lastUsed`; no probe. -/
def getClientSync (s : MSess) (now : Nat) : MSess × Option Nat :=
  if s.isConnected ∧ s.client.isSome then ({ s with lastUsed := now }, s.client)
  else (s, none)

/-- `doConnect` (lines 112–151): clean up old state, construct the new
client (`newClient`), install the transport error observer, perform the
handshake. On success store the transport and mark connected; on failure
clear everything and reject with the wrapped cause. -/
def doConnect (s : MSess) (tr : Nat) (handshakeOk closeFails : Bool)
    (cause newClient : Nat) : MSess × Except MErr Unit :=
  let s := (cleanup s closeFails).1
  let s := { s with client := some newClient }
  if handshakeOk then
    ({ s with transport := some tr, isConnected := true }, Except.ok ())
  else
    ({ s with isConnected := false, client := none, transport := none },
      Except.error (MErr.connectFail cause))

/-- The tail of `connect` from line 96: record a fresh `doConnect` attempt in
`connectionPromise` and await it. On fulfilment null the field, fail with
`noClient` if the client vanished, else touch `lastUsed` and return it. On
rejection the `await` rethrows before `connectionPromise` is cleared, so the
rejected promise stays in the field. -/
def connectFresh (s : MSess) (tr : Nat) (handshakeOk closeFails : Bool)
    (cause newClient now : Nat) : MSess × Except MErr Nat :=
  let (s, r) := doConnect s tr handshakeOk closeFails cause newClient
  match r with
  | Except.ok () =>
    let s := { s with connPromise := none }
    match s.client with
    | some c => ({ s with lastUsed := now }, Except.ok c)
    | none => (s, Except.error MErr.noClient)
  | Except.error e => ({ s with connPromise := some (Except.error e) }, Except.error e)

/-- `connect` (lines 75–106), sequential single-caller view. If connected,
probe; probe success returns the cached client, probe failure clears
`isConnected`/`client` (not the transport) and falls through. A non-null
`connectionPromise` is awaited: a rejected one rethrows its error, a
fulfilled one re-checks the state and returns the cached client when
connected. Otherwise a fresh attempt runs (`connectFresh`). -/
def connect (s : MSess) (tr : Nat) (listToolsOk handshakeOk closeFails : Bool)
    (cause newClient now : Nat) : MSess × Except MErr Nat :=
  if s.isConnected ∧ s.client.isSome then
    if validateConnection s listToolsOk then
      ({ s with lastUsed := now }, Except.ok (s.client.getD 0))
    else
      let s := { s with isConnected := false, client := none }
      match s.connPromise with
      | some (Except.error e) => (s, Except.error e)
      | some (Except.ok ()) =>
        if s.isConnected ∧ s.client.isSome then
          ({ s with lastUsed := now }, Except.ok (s.client.getD 0))
        else connectFresh s tr handshakeOk closeFails cause newClient now
      | none => connectFresh s tr handshakeOk closeFails cause newClient now
  else
    match s.connPromise with
    | some (Except.error e) => (s, Except.error e)
    | some (Except.ok ()) =>
      if s.isConnected ∧ s.client.isSome then
        ({ s with lastUsed := now }, Except.ok (s.client.getD 0))
      else connectFresh s tr handshakeOk closeFails cause newClient now
    | none => connectFresh s tr handshakeOk closeFails cause newClient now

/-! ## The registry (static `instances` map) and its operations -/

/-- Session timeout in milliseconds — 30 minutes (line 19). -/
def SESSION_TIMEOUT : Nat := 30 * 60 * 1000

/-- Cleanup check interval in milliseconds — 5 minutes (line 21). -/
def CLEANUP_INTERVAL : Nat := 5 * 60 * 1000

/-- The static `instances` map, as an association list with unique keys;
session ids are opaque numbers here. -/
def Registry := List (Nat × MSess)

/-- The body of the per-expired-id loop (lines 247–256): look the id up in
the map; when present, fire off its `cleanup` (`.catch` absorbs any
failure, and the loop does not await it) and delete the entry. The
accumulator carries the map and the ids cleaned so far. -/
def sweepStep (closeFails : Nat → Bool) (acc : List (Nat × MSess) × List Nat)
    (sid : Nat) : List (Nat × MSess) × List Nat :=
  match acc.1.find? (fun p => p.1 == sid) with
  | some p =>
    -- `instance.cleanup().catch(...)`: fire-and-forget, errors logged only
    let _ := cleanup p.2 (closeFails sid)
    (acc.1.filter fun q => q.1 != sid, acc.2 ++ [sid])
  | none => acc

/-- `checkAndCleanupExpiredSessions` (lines 236–262): collect the ids whose
idle time exceeds `SESSION_TIMEOUT`, then for each one look it up, fire off
its `cleanup` (`.catch` absorbs any failure) and delete it; finally restart
the sweep timer iff the map is still non-empty. Returns the new registry,
the ids on which `cleanup` was invoked, and the reschedule decision. -/
def checkAndCleanupExpiredSessions (now : Nat) (reg : List (Nat × MSess))
    (closeFails : Nat → Bool) : List (Nat × MSess) × List Nat × Bool :=
  let expiredSessions :=
    ((reg.filter fun p => decide (SESSION_TIMEOUT < now - p.2.lastUsed)).map Prod.fst)
  let res := expiredSessions.foldl (sweepStep closeFails) (reg, [])
  (res.1, res.2, decide (0 < res.1.length))

/-- `cleanupAllSessions` (lines 267–277): push every instance's `cleanup()`
into a list, `Promise.all` them (none can reject, `cleanup` absorbs close
failures), then clear the map. Returns the emptied registry together with
each session's cleaned state and whether its transport was closed. -/
def cleanupAllSessions (reg : List (Nat × MSess)) (closeFails : Nat → Bool) :
    List (Nat × MSess) × List (Nat × (MSess × Bool)) :=
  let cleanupResults := reg.map fun p => (p.1, cleanup p.2 (closeFails p.1))
  ([], cleanupResults)

/-- The per-handle resource invariant claimed by the spec: a handle that is
not `Connected` holds no resource at all — client and transport both
cleared. -/
def sessionInvariant (s : MSess) : Prop :=
  s.isConnected = false → s.client = none ∧ s.transport = none

/-- The half of the invariant the code actually maintains: a handle that is
not `Connected` holds no client. -/
def clientInvariant (s : MSess) : Prop :=
  s.isConnected = false → s.client = none

instance (s : MSess) : Decidable (sessionInvariant s) := by
  unfold sessionInvariant; infer_instance

instance (s : MSess) : Decidable (clientInvariant s) := by
  unfold clientInvariant; infer_instance

end McpSessionManager

namespace ConnectSem

/-! ## Interleaved semantics of `connect` (part_000 lines 75–151)

JavaScript is single-threaded with run-to-completion between `await`
points, so N "concurrent" `connect` calls interleave at exactly the await
boundaries. Each atomic step is one synchronous code segment:

* a caller's first segment (`Act.first`): the `isConnected` check, then
  either entering `validateConnection` (and suspending), becoming a waiter
  on a non-null `connectionPromise` (and suspending), or launching
  `doConnect` — whose synchronous prefix runs `cleanup` up to its first
  internal await — assigning the new promise to `connectionPromise`, and
  suspending on it;
* the resolution of a caller's `validateConnection` await (`Act.valRes`);
* a pending attempt's next segment (`Act.attemptStep`): finishing `cleanup`
  after `transport.close()` settles, or — after `await this.cleanup()`
  resumes — constructing the new `Client`, installing `transport.onerror`
  and starting the handshake;
* the handshake settling (`Act.settle`), fulfilling or rejecting the
  attempt's promise;
* a suspended caller resuming after the promise it awaits has settled
  (`Act.resume`).
-/

open McpSessionManager (MErr)

/-- Progress of one `doConnect` invocation (one `connectionPromise`). -/
inductive Phase
  | closing
  | ready
  | handshaking (c : Nat)
  | settledOk (c : Nat)
  | settledErr (e : Nat)
deriving DecidableEq

/-- One recorded `doConnect` attempt: its phase and the transport argument
the launching caller passed to `connect`. -/
structure Attempt where
  phase : Phase
  tr : Nat
deriving DecidableEq

/-- A caller's control point inside `connect`. `start` holds the transport
argument; `waiting`/`starterWaiting` hold the promise (attempt index) being
awaited; `retOk`/`retErr` are the call's outcome. -/
inductive PC
  | start (tr : Nat)
  | validating (tr : Nat)
  | waiting (tr : Nat) (pid : Nat)
  | starterWaiting (pid : Nat)
  | retOk (c : Nat)
  | retErr (e : MErr)
deriving DecidableEq

/-- The shared instance fields plus all callers' control points.
`time` is a logical clock incremented at every step (`Date.now()`);
`nextClient` numbers `new Client(...)` constructions. -/
structure Cfg where
  client : Option Nat
  transport : Option Nat
  isConnected : Bool
  connPromise : Option Nat
  lastUsed : Nat
  timerOn : Bool
  time : Nat
  nextClient : Nat
  attempts : List Attempt
  pcs : List PC
deriving DecidableEq

/-- Scheduler actions. `settle` carries the handshake outcome oracle and,
on failure, the underlying cause. -/
inductive Act
  | first (i : Nat)
  | valRes (i : Nat) (ok : Bool)
  | attemptStep (k : Nat)
  | settle (k : Nat) (ok : Bool) (e : Nat)
  | resume (i : Nat)
deriving DecidableEq

/-- Lines 96–97 (and the synchronous prefix of `doConnect`, lines 112–115):
`this.connectionPromise = this.doConnect(transport)`. `doConnect` runs
synchronously through `cleanup`: the timer is cancelled; with no transport,
`cleanup` completes in this segment (clearing client/isConnected) and the
attempt suspends at `await this.cleanup()` in phase `ready`; with a
transport, `cleanup` suspends inside `await this.transport.close()` in
phase `closing`. The promise is recorded and the caller suspends on it. -/
def startNewAttempt (cfg : Cfg) (i : Nat) (tr : Nat) : Cfg :=
  let aid := cfg.attempts.length
  match cfg.transport with
  | some _ =>
    { cfg with timerOn := false,
               attempts := cfg.attempts ++ [⟨Phase.closing, tr⟩],
               connPromise := some aid,
               pcs := cfg.pcs.set i (PC.starterWaiting aid) }
  | none =>
    { cfg with timerOn := false, client := none, isConnected := false,
               attempts := cfg.attempts ++ [⟨Phase.ready, tr⟩],
               connPromise := some aid,
               pcs := cfg.pcs.set i (PC.starterWaiting aid) }

/-- Lines 88–98: the fall-through after the connected-check. A non-null
`connectionPromise` turns the caller into a waiter on it; otherwise the
caller launches a fresh attempt. -/
def promiseCheckOrStart (cfg : Cfg) (i : Nat) (tr : Nat) : Cfg :=
  match cfg.connPromise with
  | some pid => { cfg with pcs := cfg.pcs.set i (PC.waiting tr pid) }
  | none => startNewAttempt cfg i tr

/-- A caller's first synchronous segment (lines 75–97). -/
def stepFirst (cfg : Cfg) (i : Nat) : Cfg :=
  match cfg.pcs.get? i with
  | some (PC.start tr) =>
    if cfg.isConnected ∧ cfg.client.isSome then
      { cfg with pcs := cfg.pcs.set i (PC.validating tr) }
    else promiseCheckOrStart cfg i tr
  | _ => cfg

/-- Resolution of `await this.validateConnection()` (lines 76–86):
success touches `lastUsed` and returns the cached client; failure (probe
failed, or client/transport missing) clears `isConnected` and `client` and
falls through to the promise check in the same segment. -/
def stepValRes (cfg : Cfg) (i : Nat) (ok : Bool) : Cfg :=
  match cfg.pcs.get? i with
  | some (PC.validating tr) =>
    if ok ∧ cfg.client.isSome ∧ cfg.transport.isSome then
      { cfg with lastUsed := cfg.time, pcs := cfg.pcs.set i (PC.retOk (cfg.client.getD 0)) }
    else
      promiseCheckOrStart { cfg with isConnected := false, client := none } i tr
  | _ => cfg

/-- A pending attempt's next segment. `closing`: `transport.close()` settled
(failures caught), the rest of `cleanup` clears the fields. `ready`:
`await this.cleanup()` resumed, so `new Client(...)` is constructed
(lines 118–130), `transport.onerror` installed, and
`await this.client.connect(transport)` starts. -/
def stepAttempt (cfg : Cfg) (k : Nat) : Cfg :=
  match cfg.attempts.get? k with
  | some a =>
    match a.phase with
    | Phase.closing =>
      { cfg with transport := none, client := none, isConnected := false,
                 attempts := cfg.attempts.set k ⟨Phase.ready, a.tr⟩ }
    | Phase.ready =>
      { cfg with client := some cfg.nextClient, nextClient := cfg.nextClient + 1,
                 attempts := cfg.attempts.set k ⟨Phase.handshaking cfg.nextClient, a.tr⟩ }
    | _ => cfg
  | none => cfg

/-- The handshake settles (lines 140–150). Success: store the transport,
mark connected, fulfil the promise. Failure: clear everything and reject
the promise with the wrapped cause. -/
def stepSettle (cfg : Cfg) (k : Nat) (ok : Bool) (e : Nat) : Cfg :=
  match cfg.attempts.get? k with
  | some a =>
    match a.phase with
    | Phase.handshaking c =>
      if ok then
        { cfg with transport := some a.tr, isConnected := true,
                   attempts := cfg.attempts.set k ⟨Phase.settledOk c, a.tr⟩ }
      else
        { cfg with isConnected := false, client := none, transport := none,
                   attempts := cfg.attempts.set k ⟨Phase.settledErr e, a.tr⟩ }
    | _ => cfg
  | none => cfg

/-- A suspended caller resumes once the promise it awaits has settled.
A waiter (lines 88–94) on a fulfilled promise re-checks the state: if
connected it returns the cached client touching `lastUsed`, otherwise it
falls through and launches a fresh attempt (line 96); on a rejected promise
the `await` rethrows. The starter (lines 96–105) on fulfilment nulls
`connectionPromise`, throws `noClient` if the client vanished, else touches
`lastUsed` and returns it; on rejection the `await` rethrows and the field
keeps the rejected promise. -/
def stepResume (cfg : Cfg) (i : Nat) : Cfg :=
  match cfg.pcs.get? i with
  | some (PC.waiting tr pid) =>
    match cfg.attempts.get? pid with
    | some a =>
      match a.phase with
      | Phase.settledOk _ =>
        if cfg.isConnected ∧ cfg.client.isSome then
          { cfg with lastUsed := cfg.time,
                     pcs := cfg.pcs.set i (PC.retOk (cfg.client.getD 0)) }
        else startNewAttempt cfg i tr
      | Phase.settledErr e =>
        { cfg with pcs := cfg.pcs.set i (PC.retErr (MErr.connectFail e)) }
      | _ => cfg
    | none => cfg
  | some (PC.starterWaiting pid) =>
    match cfg.attempts.get? pid with
    | some a =>
      match a.phase with
      | Phase.settledOk _ =>
        let cfg := { cfg with connPromise := none }
        match cfg.client with
        | some c => { cfg with lastUsed := cfg.time, pcs := cfg.pcs.set i (PC.retOk c) }
        | none => { cfg with pcs := cfg.pcs.set i (PC.retErr MErr.noClient) }
      | Phase.settledErr e =>
        { cfg with pcs := cfg.pcs.set i (PC.retErr (MErr.connectFail e)) }
      | _ => cfg
    | none => cfg
  | _ => cfg

/-- One scheduler step: the clock ticks, then the chosen segment runs
(a disabled action is a no-op apart from the tick). -/
def applyAct (cfg : Cfg) (a : Act) : Cfg :=
  let cfg := { cfg with time := cfg.time + 1 }
  match a with
  | Act.first i => stepFirst cfg i
  | Act.valRes i ok => stepValRes cfg i ok
  | Act.attemptStep k => stepAttempt cfg k
  | Act.settle k ok e => stepSettle cfg k ok e
  | Act.resume i => stepResume cfg i

/-- Run a schedule. -/
def exec (cfg : Cfg) (acts : List Act) : Cfg := acts.foldl applyAct cfg

/-- A fresh handle (just constructed, timer armed) with one `connect`
caller per element of `trs`, each holding its transport argument. -/
def initCfg (trs : List Nat) : Cfg :=
  { client := none, transport := none, isConnected := false, connPromise := none,
    lastUsed := 0, timerOn := true, time := 0, nextClient := 0, attempts := [],
    pcs := trs.map PC.start }

/-- An action that settles a handshake. -/
def isSettle : Act → Bool
  | Act.settle _ _ _ => true
  | _ => false

/-- An action that runs a caller's first segment: the arrival of a
`connect` call. -/
def isFirst : Act → Bool
  | Act.first _ => true
  | _ => false

/-- A caller that has returned or thrown. -/
def isDone : PC → Bool
  | PC.retOk _ => true
  | PC.retErr _ => true
  | _ => false

/-- Every caller has completed its `connect` call. -/
def AllDone (cfg : Cfg) : Prop := ∀ pc ∈ cfg.pcs, isDone pc = true

instance (cfg : Cfg) : Decidable (AllDone cfg) := by
  unfold AllDone; infer_instance

/-- An attempt on which the factory ran: its `new Client(...)` construction
happened and its handshake was started. -/
def attemptStarted (a : Attempt) : Bool :=
  match a.phase with
  | Phase.closing => false
  | Phase.ready => false
  | _ => true

/-- Number of `new Client(...)` constructions (= handshakes started). -/
def factoryCalls (cfg : Cfg) : Nat := cfg.attempts.countP attemptStarted

/-- Allowed caller states while the single attempt is pending. -/
def pcPre (pc : PC) : Prop :=
  (∃ t, pc = PC.start t) ∨ (∃ t, pc = PC.waiting t 0) ∨ pc = PC.starterWaiting 0

/-- Allowed caller states after the attempt fulfilled with client `c`. -/
def pcPostOk (c : Nat) (pc : PC) : Prop :=
  (∃ t, pc = PC.start t) ∨ (∃ t, pc = PC.waiting t 0) ∨ pc = PC.starterWaiting 0 ∨
    pc = PC.retOk c

/-- Allowed caller states after the attempt rejected with cause `e`. -/
def pcPostErr (e : Nat) (pc : PC) : Prop :=
  (∃ t, pc = PC.start t) ∨ (∃ t, pc = PC.waiting t 0) ∨ pc = PC.starterWaiting 0 ∨
    pc = PC.retErr (MErr.connectFail e)

/-- Phase A: no attempt launched yet; the handle is pristine. -/
def PhaseA (cfg : Cfg) : Prop :=
  cfg.attempts = [] ∧ cfg.connPromise = none ∧ cfg.isConnected = false ∧
    cfg.client = none ∧ cfg.transport = none ∧ ∀ pc ∈ cfg.pcs, ∃ t, pc = PC.start t

/-- Phase B: exactly one attempt, still pending; every later arrival becomes
a waiter on it because `connectionPromise` is non-null. -/
def PhaseB (cfg : Cfg) : Prop :=
  ∃ tr, cfg.connPromise = some 0 ∧ cfg.isConnected = false ∧ cfg.transport = none ∧
    ((cfg.attempts = [⟨Phase.ready, tr⟩] ∧ cfg.client = none) ∨
      (∃ c, cfg.attempts = [⟨Phase.handshaking c, tr⟩] ∧ cfg.client = some c)) ∧
    ∀ pc ∈ cfg.pcs, pcPre pc

/-- Phase C: the single attempt fulfilled with client `c`; the handle is
connected and every resumed caller has returned `c`. -/
def PhaseC (cfg : Cfg) : Prop :=
  ∃ tr c, cfg.attempts = [⟨Phase.settledOk c, tr⟩] ∧ cfg.isConnected = true ∧
    cfg.client = some c ∧ ∀ pc ∈ cfg.pcs, pcPostOk c pc

/-- Phase D: the single attempt rejected with cause `e`; the rejected
promise is stuck in `connectionPromise` and every resumed caller has
rethrown the same wrapped cause. -/
def PhaseD (cfg : Cfg) : Prop :=
  ∃ tr e, cfg.attempts = [⟨Phase.settledErr e, tr⟩] ∧ cfg.connPromise = some 0 ∧
    cfg.isConnected = false ∧ cfg.client = none ∧ ∀ pc ∈ cfg.pcs, pcPostErr e pc

/-- The reachable-state invariant of the fresh-handle N-caller system. -/
def Inv (cfg : Cfg) : Prop := PhaseA cfg ∨ PhaseB cfg ∨ PhaseC cfg ∨ PhaseD cfg

end ConnectSem

namespace ConnectSem

/-! ## Invariant preservation -/

theorem pcs_length_startNewAttempt (cfg : Cfg) (i tr : Nat) :
    (startNewAttempt cfg i tr).pcs.length = cfg.pcs.length := by
  unfold startNewAttempt
  cases cfg.transport <;> simp

theorem pcs_length_promiseCheckOrStart (cfg : Cfg) (i tr : Nat) :
    (promiseCheckOrStart cfg i tr).pcs.length = cfg.pcs.length := by
  unfold promiseCheckOrStart
  cases cfg.connPromise <;> simp [pcs_length_startNewAttempt]

theorem pcs_length_stepFirst (cfg : Cfg) (i : Nat) :
    (stepFirst cfg i).pcs.length = cfg.pcs.length := by
  unfold stepFirst
  rcases hg : cfg.pcs.get? i with _ | pc
  · simp [hg]
  · cases pc <;> simp only [hg] <;> try rfl
    case start tr =>
      split
      · simp
      · exact pcs_length_promiseCheckOrStart cfg i tr

theorem pcs_length_stepValRes (cfg : Cfg) (i : Nat) (ok : Bool) :
    (stepValRes cfg i ok).pcs.length = cfg.pcs.length := by
  unfold stepValRes
  rcases hg : cfg.pcs.get? i with _ | pc
  · simp [hg]
  · cases pc <;> simp only [hg] <;> try rfl
    case validating tr =>
      split
      · simp
      · exact pcs_length_promiseCheckOrStart _ i tr

theorem pcs_length_stepAttempt (cfg : Cfg) (k : Nat) :
    (stepAttempt cfg k).pcs.length = cfg.pcs.length := by
  unfold stepAttempt
  rcases hg : cfg.attempts.get? k with _ | a
  · simp [hg]
  · cases hp : a.phase <;> simp [hg, hp]

theorem pcs_length_stepSettle (cfg : Cfg) (k : Nat) (ok : Bool) (e : Nat) :
    (stepSettle cfg k ok e).pcs.length = cfg.pcs.length := by
  unfold stepSettle
  rcases hg : cfg.attempts.get? k with _ | a
  · simp [hg]
  · cases hp : a.phase <;> simp [hg, hp] <;> split <;> simp

theorem pcs_length_stepResume (cfg : Cfg) (i : Nat) :
    (stepResume cfg i).pcs.length = cfg.pcs.length := by
  unfold stepResume
  rcases hg : cfg.pcs.get? i with _ | pc
  · simp [hg]
  · cases pc <;> simp only [hg] <;> try rfl
    case waiting tr pid =>
      rcases hga : cfg.attempts.get? pid with _ | a
      · simp [hga]
      · simp only [hga]
        cases hp : a.phase <;> simp only [hp] <;> try rfl
        case settledOk c =>
          split
          · simp
          · exact pcs_length_startNewAttempt cfg i tr
        case settledErr e => simp
    case starterWaiting pid =>
      rcases hga : cfg.attempts.get? pid with _ | a
      · simp [hga]
      · simp only [hga]
        cases hp : a.phase <;> simp only [hp] <;> try rfl
        case settledOk c =>
          rcases hc : cfg.client with _ | cc <;> simp [hc]
        case settledErr e => simp

theorem pcs_length_applyAct (cfg : Cfg) (a : Act) :
    (applyAct cfg a).pcs.length = cfg.pcs.length := by
  cases a with
  | first i => exact pcs_length_stepFirst _ i
  | valRes i ok => exact pcs_length_stepValRes _ i ok
  | attemptStep k => exact pcs_length_stepAttempt _ k
  | settle k ok e => exact pcs_length_stepSettle _ k ok e
  | resume i => exact pcs_length_stepResume _ i

theorem pcs_length_exec (cfg : Cfg) (acts : List Act) :
    (exec cfg acts).pcs.length = cfg.pcs.length := by
  induction acts generalizing cfg with
  | nil => rfl
  | cons a acts ih => simp [exec] at ih ⊢; rw [ih, pcs_length_applyAct]

theorem stepFirst_AB (cfg : Cfg) (i : Nat) (h : PhaseA cfg ∨ PhaseB cfg) :
    PhaseA (stepFirst cfg i) ∨ PhaseB (stepFirst cfg i) := by
  unfold stepFirst
  rcases hg : cfg.pcs.get? i with _ | pc
  · simpa [hg] using h
  · have hmem : pc ∈ cfg.pcs := List.get?_mem hg
    rcases h with hA | hB
    · obtain ⟨hat, hcp, hic, hcl, htr, hpcs⟩ := hA
      obtain ⟨t, rfl⟩ := hpcs pc hmem
      simp only [hg]
      rw [if_neg (by simp [hic])]
      right
      unfold promiseCheckOrStart startNewAttempt
      simp only [hcp, htr]
      refine ⟨t, by simp [hat], rfl, rfl, Or.inl ⟨by simp [hat], rfl⟩, ?_⟩
      intro pc' hpc'
      rcases List.mem_or_eq_of_mem_set hpc' with h1 | rfl
      · obtain ⟨t', rfl⟩ := hpcs pc' h1
        exact Or.inl ⟨t', rfl⟩
      · exact Or.inr (Or.inr (by simp [hat]))
    · obtain ⟨tr0, hcp, hic, htr, hatt, hpcs⟩ := hB
      rcases hpcs pc hmem with ⟨t, rfl⟩ | ⟨t, rfl⟩ | rfl
      · simp only [hg]
        rw [if_neg (by simp [hic])]
        right
        unfold promiseCheckOrStart
        simp only [hcp]
        refine ⟨tr0, rfl, hic, htr, hatt, ?_⟩
        intro pc' hpc'
        rcases List.mem_or_eq_of_mem_set hpc' with h1 | rfl
        · exact hpcs pc' h1
        · exact Or.inr (Or.inl ⟨t, rfl⟩)
      · simp only [hg]
        exact Or.inr ⟨tr0, hcp, hic, htr, hatt, hpcs⟩
      · simp only [hg]
        exact Or.inr ⟨tr0, hcp, hic, htr, hatt, hpcs⟩

theorem stepValRes_noop (cfg : Cfg) (i : Nat) (ok : Bool)
    (h : ∀ pc ∈ cfg.pcs, ∀ t, pc ≠ PC.validating t) : stepValRes cfg i ok = cfg := by
  unfold stepValRes
  rcases hg : cfg.pcs.get? i with _ | pc
  · simp [hg]
  · cases pc <;> try rfl
    case validating t =>
      exact absurd rfl (h _ (List.get?_mem hg) t)

theorem no_validating_of_Inv (cfg : Cfg) (h : Inv cfg) :
    ∀ pc ∈ cfg.pcs, ∀ t, pc ≠ PC.validating t := by
  intro pc hmem t
  rcases h with hA | hB | hC | hD
  · obtain ⟨_, _, _, _, _, hpcs⟩ := hA
    obtain ⟨t', rfl⟩ := hpcs pc hmem
    simp
  · obtain ⟨_, _, _, _, _, hpcs⟩ := hB
    rcases hpcs pc hmem with ⟨t', rfl⟩ | ⟨t', rfl⟩ | rfl <;> simp
  · obtain ⟨_, _, _, _, _, hpcs⟩ := hC
    rcases hpcs pc hmem with ⟨t', rfl⟩ | ⟨t', rfl⟩ | rfl | rfl <;> simp
  · obtain ⟨_, _, _, _, _, _, hpcs⟩ := hD
    rcases hpcs pc hmem with ⟨t', rfl⟩ | ⟨t', rfl⟩ | rfl | rfl <;> simp

theorem stepAttempt_AB (cfg : Cfg) (k : Nat) (h : PhaseA cfg ∨ PhaseB cfg) :
    PhaseA (stepAttempt cfg k) ∨ PhaseB (stepAttempt cfg k) := by
  unfold stepAttempt
  rcases h with hA | hB
  · have hat := hA.1
    rw [hat]
    simp only [List.get?_nil]
    exact Or.inl hA
  · obtain ⟨tr0, hcp, hic, htr, hatt, hpcs⟩ := hB
    rcases hatt with ⟨hat, hcl⟩ | ⟨c, hat, hcl⟩
    · rw [hat]
      match k with
      | 0 =>
        simp only [List.get?_cons_zero]
        right
        refine ⟨tr0, hcp, hic, htr, Or.inr ⟨cfg.nextClient, by simp, rfl⟩, hpcs⟩
      | k + 1 =>
        simp only [List.get?_cons_succ, List.get?_nil]
        exact Or.inr ⟨tr0, hcp, hic, htr, Or.inl ⟨hat, hcl⟩, hpcs⟩
    · rw [hat]
      match k with
      | 0 =>
        simp only [List.get?_cons_zero]
        exact Or.inr ⟨tr0, hcp, hic, htr, Or.inr ⟨c, hat, hcl⟩, hpcs⟩
      | k + 1 =>
        simp only [List.get?_cons_succ, List.get?_nil]
        exact Or.inr ⟨tr0, hcp, hic, htr, Or.inr ⟨c, hat, hcl⟩, hpcs⟩

theorem pcPre_pcPostOk (c : Nat) (pc : PC) (h : pcPre pc) : pcPostOk c pc := by
  rcases h with h | h | h
  · exact Or.inl h
  · exact Or.inr (Or.inl h)
  · exact Or.inr (Or.inr (Or.inl h))

theorem pcPre_pcPostErr (e : Nat) (pc : PC) (h : pcPre pc) : pcPostErr e pc := by
  rcases h with h | h | h
  · exact Or.inl h
  · exact Or.inr (Or.inl h)
  · exact Or.inr (Or.inr (Or.inl h))

theorem stepAttempt_noop_CD (cfg : Cfg) (k : Nat) (h : PhaseC cfg ∨ PhaseD cfg) :
    stepAttempt cfg k = cfg := by
  unfold stepAttempt
  rcases h with ⟨tr0, c, hat, _⟩ | ⟨tr0, e, hat, _⟩ <;> rw [hat] <;>
    match k with
    | 0 => simp
    | k + 1 => simp

theorem stepSettle_Inv (cfg : Cfg) (k : Nat) (ok : Bool) (e : Nat) (h : Inv cfg) :
    Inv (stepSettle cfg k ok e) := by
  rcases h with hA | hB | hC | hD
  · have hat := hA.1
    unfold stepSettle
    rw [hat]
    simp only [List.get?_nil]
    exact Or.inl hA
  · obtain ⟨tr0, hcp, hic, htr, hatt, hpcs⟩ := hB
    unfold stepSettle
    rcases hatt with ⟨hat, hcl⟩ | ⟨c, hat, hcl⟩
    · rw [hat]
      match k with
      | 0 =>
        simp only [List.get?_cons_zero]
        exact Or.inr (Or.inl ⟨tr0, hcp, hic, htr, Or.inl ⟨hat, hcl⟩, hpcs⟩)
      | k + 1 =>
        simp only [List.get?_cons_succ, List.get?_nil]
        exact Or.inr (Or.inl ⟨tr0, hcp, hic, htr, Or.inl ⟨hat, hcl⟩, hpcs⟩)
    · rw [hat]
      match k with
      | 0 =>
        simp only [List.get?_cons_zero]
        cases ok with
        | true =>
          simp only [if_pos rfl]
          right; right; left
          refine ⟨tr0, c, by simp, rfl, hcl, ?_⟩
          intro pc hmem
          exact pcPre_pcPostOk c pc (hpcs pc hmem)
        | false =>
          simp only [Bool.false_eq_true, if_false]
          right; right; right
          refine ⟨tr0, e, by simp, hcp, rfl, rfl, ?_⟩
          intro pc hmem
          exact pcPre_pcPostErr e pc (hpcs pc hmem)
      | k + 1 =>
        simp only [List.get?_cons_succ, List.get?_nil]
        exact Or.inr (Or.inl ⟨tr0, hcp, hic, htr, Or.inr ⟨c, hat, hcl⟩, hpcs⟩)
  · have hnoop := stepAttempt_noop_CD cfg k (Or.inl hC)
    unfold stepSettle
    obtain ⟨tr0, c, hat, hic, hcl, hpcs⟩ := hC
    rw [hat]
    match k with
    | 0 =>
      simp only [List.get?_cons_zero]
      exact Or.inr (Or.inr (Or.inl ⟨tr0, c, hat, hic, hcl, hpcs⟩))
    | k + 1 =>
      simp only [List.get?_cons_succ, List.get?_nil]
      exact Or.inr (Or.inr (Or.inl ⟨tr0, c, hat, hic, hcl, hpcs⟩))
  · obtain ⟨tr0, e0, hat, hcp, hic, hcl, hpcs⟩ := hD
    unfold stepSettle
    rw [hat]
    match k with
    | 0 =>
      simp only [List.get?_cons_zero]
      exact Or.inr (Or.inr (Or.inr ⟨tr0, e0, hat, hcp, hic, hcl, hpcs⟩))
    | k + 1 =>
      simp only [List.get?_cons_succ, List.get?_nil]
      exact Or.inr (Or.inr (Or.inr ⟨tr0, e0, hat, hcp, hic, hcl, hpcs⟩))

theorem stepResume_noop_AB (cfg : Cfg) (i : Nat) (h : PhaseA cfg ∨ PhaseB cfg) :
    stepResume cfg i = cfg := by
  unfold stepResume
  rcases hg : cfg.pcs.get? i with _ | pc
  · rfl
  · have hmem := List.get?_mem hg
    rcases h with hA | hB
    · obtain ⟨hat, _, _, _, _, hpcs⟩ := hA
      obtain ⟨t, rfl⟩ := hpcs pc hmem
      rfl
    · obtain ⟨tr0, hcp, hic, htr, hatt, hpcs⟩ := hB
      rcases hpcs pc hmem with ⟨t, rfl⟩ | ⟨t, rfl⟩ | rfl
      · rfl
      · rcases hatt with ⟨hat, _⟩ | ⟨c, hat, _⟩ <;> simp [hat]
      · rcases hatt with ⟨hat, _⟩ | ⟨c, hat, _⟩ <;> simp [hat]

theorem stepResume_Inv (cfg : Cfg) (i : Nat) (h : Inv cfg) : Inv (stepResume cfg i) := by
  rcases h with hA | hB | hC | hD
  · rw [stepResume_noop_AB cfg i (Or.inl hA)]
    exact Or.inl hA
  · rw [stepResume_noop_AB cfg i (Or.inr hB)]
    exact Or.inr (Or.inl hB)
  · obtain ⟨tr0, c, hat, hic, hcl, hpcs⟩ := hC
    unfold stepResume
    rcases hg : cfg.pcs.get? i with _ | pc
    · exact Or.inr (Or.inr (Or.inl ⟨tr0, c, hat, hic, hcl, hpcs⟩))
    · have hmem := List.get?_mem hg
      rcases hpcs pc hmem with ⟨t, rfl⟩ | ⟨t, rfl⟩ | rfl | rfl
      · exact Or.inr (Or.inr (Or.inl ⟨tr0, c, hat, hic, hcl, hpcs⟩))
      · rw [hat]
        simp only [List.get?_cons_zero]
        rw [if_pos ⟨hic, by simp [hcl]⟩]
        right; right; left
        refine ⟨tr0, c, rfl, hic, hcl, ?_⟩
        intro pc' hpc'
        rcases List.mem_or_eq_of_mem_set hpc' with h1 | rfl
        · exact hpcs pc' h1
        · exact Or.inr (Or.inr (Or.inr (by simp [hcl])))
      · rw [hat]
        simp only [List.get?_cons_zero, hcl]
        right; right; left
        refine ⟨tr0, c, rfl, hic, rfl, ?_⟩
        intro pc' hpc'
        rcases List.mem_or_eq_of_mem_set hpc' with h1 | rfl
        · exact hpcs pc' h1
        · exact Or.inr (Or.inr (Or.inr rfl))
      · exact Or.inr (Or.inr (Or.inl ⟨tr0, c, hat, hic, hcl, hpcs⟩))
  · obtain ⟨tr0, e0, hat, hcp, hic, hcl, hpcs⟩ := hD
    unfold stepResume
    rcases hg : cfg.pcs.get? i with _ | pc
    · exact Or.inr (Or.inr (Or.inr ⟨tr0, e0, hat, hcp, hic, hcl, hpcs⟩))
    · have hmem := List.get?_mem hg
      rcases hpcs pc hmem with ⟨t, rfl⟩ | ⟨t, rfl⟩ | rfl | rfl
      · exact Or.inr (Or.inr (Or.inr ⟨tr0, e0, hat, hcp, hic, hcl, hpcs⟩))
      · rw [hat]
        simp only [List.get?_cons_zero]
        right; right; right
        refine ⟨tr0, e0, rfl, hcp, hic, hcl, ?_⟩
        intro pc' hpc'
        rcases List.mem_or_eq_of_mem_set hpc' with h1 | rfl
        · exact hpcs pc' h1
        · exact Or.inr (Or.inr (Or.inr rfl))
      · rw [hat]
        simp only [List.get?_cons_zero]
        right; right; right
        refine ⟨tr0, e0, rfl, hcp, hic, hcl, ?_⟩
        intro pc' hpc'
        rcases List.mem_or_eq_of_mem_set hpc' with h1 | rfl
        · exact hpcs pc' h1
        · exact Or.inr (Or.inr (Or.inr rfl))
      · exact Or.inr (Or.inr (Or.inr ⟨tr0, e0, hat, hcp, hic, hcl, hpcs⟩))

theorem applyAct_AB (cfg : Cfg) (a : Act) (h : PhaseA cfg ∨ PhaseB cfg)
    (hs : isSettle a = false) :
    PhaseA (applyAct cfg a) ∨ PhaseB (applyAct cfg a) := by
  cases a with
  | first i => exact stepFirst_AB _ i h
  | valRes i ok =>
    have hno : ∀ pc ∈ cfg.pcs, ∀ t, pc ≠ PC.validating t := by
      rcases h with hA | hB
      · exact no_validating_of_Inv cfg (Or.inl hA)
      · exact no_validating_of_Inv cfg (Or.inr (Or.inl hB))
    rw [show applyAct cfg (Act.valRes i ok) =
        stepValRes { cfg with time := cfg.time + 1 } i ok from rfl,
      stepValRes_noop { cfg with time := cfg.time + 1 } i ok hno]
    exact h
  | attemptStep k => exact stepAttempt_AB _ k h
  | settle k ok e => simp [isSettle] at hs
  | resume i =>
    rw [show applyAct cfg (Act.resume i) =
        stepResume { cfg with time := cfg.time + 1 } i from rfl,
      stepResume_noop_AB { cfg with time := cfg.time + 1 } i h]
    exact h

theorem applyAct_Inv (cfg : Cfg) (a : Act) (h : Inv cfg) (hf : isFirst a = false) :
    Inv (applyAct cfg a) := by
  cases a with
  | first i => simp [isFirst] at hf
  | valRes i ok =>
    rw [show applyAct cfg (Act.valRes i ok) =
        stepValRes { cfg with time := cfg.time + 1 } i ok from rfl,
      stepValRes_noop { cfg with time := cfg.time + 1 } i ok (no_validating_of_Inv cfg h)]
    exact h
  | attemptStep k =>
    rcases h with hA | hB | hC | hD
    · exact (stepAttempt_AB { cfg with time := cfg.time + 1 } k (Or.inl hA)).imp id Or.inl
    · exact (stepAttempt_AB { cfg with time := cfg.time + 1 } k (Or.inr hB)).imp id Or.inl
    · rw [show applyAct cfg (Act.attemptStep k) =
          stepAttempt { cfg with time := cfg.time + 1 } k from rfl,
        stepAttempt_noop_CD { cfg with time := cfg.time + 1 } k (Or.inl hC)]
      exact Or.inr (Or.inr (Or.inl hC))
    · rw [show applyAct cfg (Act.attemptStep k) =
          stepAttempt { cfg with time := cfg.time + 1 } k from rfl,
        stepAttempt_noop_CD { cfg with time := cfg.time + 1 } k (Or.inr hD)]
      exact Or.inr (Or.inr (Or.inr hD))
  | settle k ok e => exact stepSettle_Inv _ k ok e h
  | resume i => exact stepResume_Inv _ i h

theorem exec_AB (cfg : Cfg) (acts : List Act) (h : PhaseA cfg ∨ PhaseB cfg)
    (hs : ∀ a ∈ acts, isSettle a = false) :
    PhaseA (exec cfg acts) ∨ PhaseB (exec cfg acts) := by
  induction acts generalizing cfg with
  | nil => exact h
  | cons a acts ih =>
    show PhaseA (exec (applyAct cfg a) acts) ∨ PhaseB (exec (applyAct cfg a) acts)
    exact ih (applyAct cfg a) (applyAct_AB cfg a h (hs a (by simp)))
      fun a' ha' => hs a' (by simp [ha'])

theorem exec_Inv (cfg : Cfg) (acts : List Act) (h : Inv cfg)
    (hf : ∀ a ∈ acts, isFirst a = false) :
    Inv (exec cfg acts) := by
  induction acts generalizing cfg with
  | nil => exact h
  | cons a acts ih =>
    show Inv (exec (applyAct cfg a) acts)
    exact ih (applyAct cfg a) (applyAct_Inv cfg a h (hf a (by simp)))
      fun a' ha' => hf a' (by simp [ha'])

theorem initCfg_PhaseA (trs : List Nat) : PhaseA (initCfg trs) := by
  refine ⟨rfl, rfl, rfl, rfl, rfl, ?_⟩
  intro pc hmem
  rcases List.mem_map.mp hmem with ⟨t, _, rfl⟩
  exact ⟨t, rfl⟩

/-- Any complete concurrent execution ends in Phase C or Phase D. -/
theorem exec_concurrent_Inv (trs : List Nat) (A B : List Act)
    (hA : ∀ a ∈ A, isSettle a = false) (hB : ∀ a ∈ B, isFirst a = false) :
    Inv (exec (initCfg trs) (A ++ B)) := by
  have h1 : PhaseA (exec (initCfg trs) A) ∨ PhaseB (exec (initCfg trs) A) :=
    exec_AB (initCfg trs) A (Or.inl (initCfg_PhaseA trs)) hA
  have h2 : Inv (exec (initCfg trs) A) := by
    rcases h1 with h | h
    · exact Or.inl h
    · exact Or.inr (Or.inl h)
  have : exec (initCfg trs) (A ++ B) = exec (exec (initCfg trs) A) B := by
    simp [exec, List.foldl_append]
  rw [this]
  exact exec_Inv _ B h2 hB

end ConnectSem

namespace McpSessionManager

/-! ## Digit-expansion lemmas -/

theorem natToBaseAux_congr (b : Nat) (hb : 2 ≤ b) :
    ∀ n f₁ f₂, n < f₁ → n < f₂ → natToBaseAux b f₁ n = natToBaseAux b f₂ n := by
  intro n
  induction n using Nat.strong_induction_on with
  | _ n ih =>
    intro f₁ f₂ h₁ h₂
    match f₁, f₂ with
    | f₁ + 1, f₂ + 1 =>
      by_cases hn : n < b
      · simp [natToBaseAux, hn]
      · have hb1 : 1 < b := hb
        have hnpos : 0 < n := lt_of_lt_of_le (by omega) (le_of_not_lt hn)
        have hdiv : n / b < n := Nat.div_lt_self hnpos hb1
        simp only [natToBaseAux, if_neg hn]
        rw [ih (n / b) hdiv f₁ f₂ (by omega) (by omega)]

theorem natToBase_eq (b n : Nat) (hb : 2 ≤ b) :
    natToBase b n = if n < b then [n] else natToBase b (n / b) ++ [n % b] := by
  by_cases hn : n < b
  · simp [natToBase, natToBaseAux, hn]
  · have hnpos : 0 < n := lt_of_lt_of_le (by omega) (le_of_not_lt hn)
    have hdiv : n / b < n := Nat.div_lt_self hnpos hb
    show natToBaseAux b (n + 1) n = _
    rw [if_neg hn]
    have hstep : natToBaseAux b (n + 1) n = natToBaseAux b n (n / b) ++ [n % b] := by
      simp [natToBaseAux, hn]
    rw [hstep, natToBase,
      natToBaseAux_congr b hb (n / b) n (n / b + 1) (by omega) (by omega)]

theorem evalBase36_append_last (xs : List Nat) (d : Nat) :
    evalBase36 (xs ++ [d]) = evalBase36 xs * 36 + d := by
  simp [evalBase36, List.foldl_append]

theorem evalBase36_natToBase (n : Nat) : evalBase36 (natToBase 36 n) = n := by
  induction n using Nat.strong_induction_on with
  | _ n ih =>
    rw [natToBase_eq 36 n (by norm_num)]
    by_cases hn : n < 36
    · simp [hn, evalBase36]
    · have hnpos : 0 < n := by omega
      have hdiv : n / 36 < n := Nat.div_lt_self hnpos (by norm_num)
      simp only [if_neg hn, evalBase36_append_last, ih (n / 36) hdiv]
      omega

theorem natToBase36_injective : Function.Injective (natToBase 36) := by
  intro m n h
  have := evalBase36_natToBase m
  rw [h, evalBase36_natToBase] at this
  omega

theorem digitCode36_injective : Function.Injective digitCode36 := by
  intro a b h
  unfold digitCode36 at h
  by_cases ha : a < 10 <;> by_cases hb : b < 10 <;> simp [ha, hb] at h <;> omega

theorem digitCode36_ne_underscore (d : Nat) : digitCode36 d ≠ 95 := by
  unfold digitCode36
  by_cases hd : d < 10 <;> simp [hd] <;> omega

theorem base36Str_injective : Function.Injective base36Str := by
  intro m n h
  exact natToBase36_injective ((List.map_injective_iff.mpr digitCode36_injective) h)

theorem base36Str_no_underscore (n : Nat) : ∀ x ∈ base36Str n, x ≠ 95 := by
  intro x hx
  rcases List.mem_map.mp hx with ⟨d, _, rfl⟩
  exact digitCode36_ne_underscore d

theorem takeWhile_ne_of_all {p : Nat → Bool} :
    ∀ (u v : List Nat), (∀ x ∈ u, p x = true) → p 95 = false →
      List.takeWhile p (u ++ 95 :: v) = u := by
  intro u v hu h95
  induction u with
  | nil => simp [List.takeWhile, h95]
  | cons a u ih =>
    have ha : p a = true := hu a (by simp)
    simp only [List.cons_append, List.takeWhile, ha, List.append_eq]
    rw [ih fun x hx => hu x (by simp [hx])]

theorem tailSeg_append (A T : List Nat) (hT : ∀ x ∈ T, x ≠ 95) :
    tailSeg (A ++ 95 :: T) = T := by
  unfold tailSeg
  rw [List.reverse_append, List.reverse_cons, List.append_assoc]
  simp only [List.cons_append, List.nil_append]
  rw [takeWhile_ne_of_all T.reverse (A.reverse) ?_ (by simp)]
  · simp
  · intro x hx
    simp only [decide_eq_true_eq]
    exact hT x (List.mem_reverse.mp hx)

theorem tailSeg_generateSessionId (c : ConnConfig) (now : Nat) :
    tailSeg (generateSessionId c now) = base36Str (effectiveTimestamp c.timestamp now) := by
  unfold generateSessionId
  have h :
      mcpSessionTag ++
          base36Str (jsHash (serializeConfig c ++ [95] ++
            decStr (effectiveTimestamp c.timestamp now))).natAbs ++
          [95] ++ base36Str (effectiveTimestamp c.timestamp now) =
        (mcpSessionTag ++
          base36Str (jsHash (serializeConfig c ++ [95] ++
            decStr (effectiveTimestamp c.timestamp now))).natAbs) ++
          95 :: base36Str (effectiveTimestamp c.timestamp now) := by
    simp [List.append_assoc]
  rw [h, tailSeg_append _ _ (base36Str_no_underscore _)]

/-- Distinct effective timestamps force distinct session ids: the id suffix is
the injective base-36 rendering of the timestamp. -/
theorem generateSessionId_ne_of_ts_ne (c₁ c₂ : ConnConfig) (n₁ n₂ : Nat)
    (h : effectiveTimestamp c₁.timestamp n₁ ≠ effectiveTimestamp c₂.timestamp n₂) :
    generateSessionId c₁ n₁ ≠ generateSessionId c₂ n₂ := by
  intro heq
  apply h
  apply base36Str_injective
  rw [← tailSeg_generateSessionId c₁ n₁, ← tailSeg_generateSessionId c₂ n₂, heq]

end McpSessionManager

/-! ## Claims -/

namespace ConnectSem

/-- C1: for every handle, N concurrent `connect` calls against a fresh
(unconnected) handle — callers that all arrive before the single handshake
settles — result in exactly one resource-factory invocation (one
`doConnect`, one `new Client(...)` construction) and one handshake, and in
any completed execution all N callers receive the same client instance, or
all fail with the same underlying cause. -/
theorem connect_concurrent_dedup (trs : List Nat) (A B : List Act)
    (hlen : 0 < trs.length)
    (hA : ∀ a ∈ A, isSettle a = false)
    (hB : ∀ a ∈ B, isFirst a = false)
    (hdone : AllDone (exec (initCfg trs) (A ++ B))) :
    (exec (initCfg trs) (A ++ B)).attempts.length = 1 ∧
    factoryCalls (exec (initCfg trs) (A ++ B)) = 1 ∧
    ((∃ c, ∀ pc ∈ (exec (initCfg trs) (A ++ B)).pcs, pc = PC.retOk c) ∨
      (∃ e, ∀ pc ∈ (exec (initCfg trs) (A ++ B)).pcs,
        pc = PC.retErr (McpSessionManager.MErr.connectFail e))) := by
  have hinv := exec_concurrent_Inv trs A B hA hB
  have hlen2 : (exec (initCfg trs) (A ++ B)).pcs.length = trs.length := by
    rw [pcs_length_exec]
    simp [initCfg]
  have hne : (exec (initCfg trs) (A ++ B)).pcs ≠ [] := by
    intro h0
    rw [h0] at hlen2
    simp at hlen2
    omega
  obtain ⟨pc0, hpc0⟩ := List.exists_mem_of_ne_nil _ hne
  rcases hinv with hA' | hB' | hC' | hD'
  · obtain ⟨_, _, _, _, _, hpcs⟩ := hA'
    obtain ⟨t, rfl⟩ := hpcs pc0 hpc0
    have := hdone _ hpc0
    simp [isDone] at this
  · obtain ⟨_, _, _, _, _, hpcs⟩ := hB'
    rcases hpcs pc0 hpc0 with ⟨t, rfl⟩ | ⟨t, rfl⟩ | rfl <;>
      · have := hdone _ hpc0
        simp [isDone] at this
  · obtain ⟨tr0, c, hat, hic, hcl, hpcs⟩ := hC'
    refine ⟨by simp [hat], by simp [factoryCalls, hat, attemptStarted], Or.inl ⟨c, ?_⟩⟩
    intro pc hmem
    rcases hpcs pc hmem with ⟨t, rfl⟩ | ⟨t, rfl⟩ | rfl | rfl
    · have := hdone _ hmem
      simp [isDone] at this
    · have := hdone _ hmem
      simp [isDone] at this
    · have := hdone _ hmem
      simp [isDone] at this
    · rfl
  · obtain ⟨tr0, e, hat, hcp, hic, hcl, hpcs⟩ := hD'
    refine ⟨by simp [hat], by simp [factoryCalls, hat, attemptStarted], Or.inr ⟨e, ?_⟩⟩
    intro pc hmem
    rcases hpcs pc hmem with ⟨t, rfl⟩ | ⟨t, rfl⟩ | rfl | rfl
    · have := hdone _ hmem
      simp [isDone] at this
    · have := hdone _ hmem
      simp [isDone] at this
    · have := hdone _ hmem
      simp [isDone] at this
    · rfl

end ConnectSem

namespace ConnectSem

/-- C1 witness: two concurrent callers, fresh handle; the schedule lets both
arrive, the attempt settle successfully, and both resume. -/
theorem connect_concurrent_dedup_witness :
    AllDone (exec (initCfg [5, 6])
      ([Act.first 0, Act.first 1, Act.attemptStep 0] ++
        [Act.settle 0 true 0, Act.resume 1, Act.resume 0])) ∧
    ((exec (initCfg [5, 6])
        ([Act.first 0, Act.first 1, Act.attemptStep 0] ++
          [Act.settle 0 true 0, Act.resume 1, Act.resume 0])).attempts.length = 1 ∧
      factoryCalls (exec (initCfg [5, 6])
        ([Act.first 0, Act.first 1, Act.attemptStep 0] ++
          [Act.settle 0 true 0, Act.resume 1, Act.resume 0])) = 1 ∧
      ((∃ c, ∀ pc ∈ (exec (initCfg [5, 6])
          ([Act.first 0, Act.first 1, Act.attemptStep 0] ++
            [Act.settle 0 true 0, Act.resume 1, Act.resume 0])).pcs, pc = PC.retOk c) ∨
        (∃ e, ∀ pc ∈ (exec (initCfg [5, 6])
          ([Act.first 0, Act.first 1, Act.attemptStep 0] ++
            [Act.settle 0 true 0, Act.resume 1, Act.resume 0])).pcs,
          pc = PC.retErr (McpSessionManager.MErr.connectFail e)))) :=
  ⟨by decide,
    connect_concurrent_dedup [5, 6]
      [Act.first 0, Act.first 1, Act.attemptStep 0]
      [Act.settle 0 true 0, Act.resume 1, Act.resume 0]
      (by decide) (by decide) (by decide) (by decide)⟩

/-- C4: a `connect` caller that found another attempt in flight awaits that
shared attempt; at resumption it re-checks the state — if the attempt
fulfilled (so the handle is connected) it returns the cached client and
`lastUsed` is updated to the current time; if the attempt rejected, the
same wrapped failure is rethrown to this caller; in both cases the waiter
starts no new attempt (the attempt list is unchanged). -/
theorem connect_waiter_coalesce (trs : List Nat) (A B : List Act)
    (hA : ∀ a ∈ A, isSettle a = false) (hB : ∀ a ∈ B, isFirst a = false)
    (i t : Nat) (cfg : Cfg)
    (hcfg : cfg = exec (initCfg trs) (A ++ B))
    (hw : cfg.pcs.get? i = some (PC.waiting t 0)) :
    (∀ c tr2, cfg.attempts = [⟨Phase.settledOk c, tr2⟩] →
      (applyAct cfg (Act.resume i)).pcs.get? i = some (PC.retOk c) ∧
      (applyAct cfg (Act.resume i)).lastUsed = cfg.time + 1 ∧
      (applyAct cfg (Act.resume i)).attempts = cfg.attempts) ∧
    (∀ e tr2, cfg.attempts = [⟨Phase.settledErr e, tr2⟩] →
      (applyAct cfg (Act.resume i)).pcs.get? i =
        some (PC.retErr (McpSessionManager.MErr.connectFail e)) ∧
      (applyAct cfg (Act.resume i)).attempts = cfg.attempts ∧
      (applyAct cfg (Act.resume i)).client = cfg.client ∧
      (applyAct cfg (Act.resume i)).isConnected = cfg.isConnected) := by
  have hinv : Inv cfg := hcfg ▸ exec_concurrent_Inv trs A B hA hB
  have hlt : i < cfg.pcs.length := by
    rcases List.get?_eq_some.mp hw with ⟨h, _⟩
    exact h
  constructor
  · intro c tr2 hat2
    rcases hinv with hA' | hB' | hC' | hD'
    · rw [hA'.1] at hat2
      simp at hat2
    · obtain ⟨tr0, _, _, _, hatt, _⟩ := hB'
      rcases hatt with ⟨hat, _⟩ | ⟨c', hat, _⟩ <;> rw [hat] at hat2 <;> simp at hat2
    · obtain ⟨tr0, c', hat, hic, hcl, hpcs⟩ := hC'
      rw [hat] at hat2
      simp only [List.cons.injEq, and_true, Attempt.mk.injEq, Phase.settledOk.injEq] at hat2
      obtain ⟨rfl, rfl⟩ := hat2
      rw [show applyAct cfg (Act.resume i) =
          stepResume { cfg with time := cfg.time + 1 } i from rfl]
      unfold stepResume
      simp only [hw, hat, List.get?_cons_zero]
      rw [if_pos ⟨hic, by simp [hcl]⟩]
      refine ⟨?_, by trivial, by trivial⟩
      rw [List.get?_set_eq_of_lt _ (by simpa using hlt)]
      simp [hcl]
    · obtain ⟨tr0, e, hat, _, _, _, _⟩ := hD'
      rw [hat] at hat2
      simp at hat2
  · intro e tr2 hat2
    rcases hinv with hA' | hB' | hC' | hD'
    · rw [hA'.1] at hat2
      simp at hat2
    · obtain ⟨tr0, _, _, _, hatt, _⟩ := hB'
      rcases hatt with ⟨hat, _⟩ | ⟨c', hat, _⟩ <;> rw [hat] at hat2 <;> simp at hat2
    · obtain ⟨tr0, c', hat, _, _, _⟩ := hC'
      rw [hat] at hat2
      simp at hat2
    · obtain ⟨tr0, e', hat, hcp, hic, hcl, hpcs⟩ := hD'
      rw [hat] at hat2
      simp only [List.cons.injEq, and_true, Attempt.mk.injEq, Phase.settledErr.injEq] at hat2
      obtain ⟨rfl, rfl⟩ := hat2
      rw [show applyAct cfg (Act.resume i) =
          stepResume { cfg with time := cfg.time + 1 } i from rfl]
      unfold stepResume
      simp only [hw, hat, List.get?_cons_zero]
      refine ⟨?_, by trivial, by trivial, by trivial⟩
      rw [List.get?_set_eq_of_lt _ (by simpa using hlt)]

end ConnectSem

namespace ConnectSem

/-- C4 witness: two callers on a fresh handle; caller 1 is a waiter on caller
0's attempt, which settles successfully; the equalities are evaluated at a
settled-Ok instance. -/
theorem connect_waiter_coalesce_witness :
    (exec (initCfg [7, 8])
        ([Act.first 0, Act.first 1, Act.attemptStep 0] ++ [Act.settle 0 true 0])).pcs.get? 1 =
      some (PC.waiting 8 0) ∧
    (∀ c tr2,
      (exec (initCfg [7, 8])
          ([Act.first 0, Act.first 1, Act.attemptStep 0] ++ [Act.settle 0 true 0])).attempts =
        [⟨Phase.settledOk c, tr2⟩] →
      (applyAct (exec (initCfg [7, 8])
          ([Act.first 0, Act.first 1, Act.attemptStep 0] ++ [Act.settle 0 true 0]))
          (Act.resume 1)).pcs.get? 1 = some (PC.retOk c) ∧
      (applyAct (exec (initCfg [7, 8])
          ([Act.first 0, Act.first 1, Act.attemptStep 0] ++ [Act.settle 0 true 0]))
          (Act.resume 1)).lastUsed =
        (exec (initCfg [7, 8])
          ([Act.first 0, Act.first 1, Act.attemptStep 0] ++ [Act.settle 0 true 0])).time + 1 ∧
      (applyAct (exec (initCfg [7, 8])
          ([Act.first 0, Act.first 1, Act.attemptStep 0] ++ [Act.settle 0 true 0]))
          (Act.resume 1)).attempts =
        (exec (initCfg [7, 8])
          ([Act.first 0, Act.first 1, Act.attemptStep 0] ++ [Act.settle 0 true 0])).attempts) :=
  ⟨by decide,
    (connect_waiter_coalesce [7, 8] [Act.first 0, Act.first 1, Act.attemptStep 0]
      [Act.settle 0 true 0] (by decide) (by decide) 1 8 _ rfl (by decide)).1⟩

end ConnectSem

namespace McpSessionManager

set_option maxRecDepth 40000 in
/-- C2 counterexample: with the salt absent in both calls and identical
(empty-prefix) configuration, the id derived at time 1 differs from the id
derived at time 2 — `generateSessionId` of part_000 substitutes `Date.now()`
for an absent salt, so the result does not depend on the config and salt
alone. -/
theorem generateSessionId_absent_salt_impure :
    generateSessionId ⟨[], none⟩ 1 ≠ generateSessionId ⟨[], none⟩ 2 := by decide

/-- C2 (amended): `generateSessionId` is pure in the config and salt
whenever a nonzero salt is present — two calls with identical config and
identical present nonzero salt yield identical ids whatever the current
time is. (In the earlier design, `generateSessionIdV1`, there is no salt
and the id is a function of the config alone by construction.) -/
theorem generateSessionId_pure_of_nonzero_salt (c : ConnConfig) (t n₁ n₂ : Nat)
    (ht : c.timestamp = some t) (h0 : t ≠ 0) :
    generateSessionId c n₁ = generateSessionId c n₂ := by
  unfold generateSessionId effectiveTimestamp
  rw [ht]
  simp [h0]

/-- C2 witness: identical config with identical present salt 5, evaluated at
times 1 and 2. -/
theorem generateSessionId_pure_of_nonzero_salt_witness :
    (⟨[], some 5⟩ : ConnConfig).timestamp = some 5 ∧ (5 : Nat) ≠ 0 ∧
      generateSessionId ⟨[], some 5⟩ 1 = generateSessionId ⟨[], some 5⟩ 2 :=
  ⟨rfl, by decide,
    generateSessionId_pure_of_nonzero_salt ⟨[], some 5⟩ 5 1 2 rfl (by decide)⟩

set_option maxRecDepth 40000 in
/-- C9 counterexample: two distinct caller-supplied salts (0 and 11) from an
identical configuration (`connectionType` string `;KED:N@`, crafted so that
the two serialized configs collide in the 32-bit hash) derive the **same**
session id when the current time is 11: salt 0 is falsy, so it is replaced
by `Date.now() = 11`, and the two ids agree in both hash part and timestamp
suffix. -/
theorem generateSessionId_distinct_salts_collision :
    (0 : Nat) ≠ 11 ∧
      generateSessionId
        ⟨[123, 34, 99, 111, 110, 110, 101, 99, 116, 105, 111, 110, 84, 121, 112,
          101, 34, 58, 34, 59, 75, 69, 68, 58, 78, 64, 34], some 0⟩ 11 =
      generateSessionId
        ⟨[123, 34, 99, 111, 110, 110, 101, 99, 116, 105, 111, 110, 84, 121, 112,
          101, 34, 58, 34, 59, 75, 69, 68, 58, 78, 64, 34], some 11⟩ 11 := by
  constructor
  · decide
  · decide

/-- C9 (amended): two distinct **nonzero** caller-supplied salts always
yield distinct session ids (whatever the configs and current times are):
the segment of the id after its last underscore is the injective base-36
rendering of the salt. -/
theorem generateSessionId_ne_of_salts_ne (c₁ c₂ : ConnConfig) (t₁ t₂ n₁ n₂ : Nat)
    (h₁ : c₁.timestamp = some t₁) (h₂ : c₂.timestamp = some t₂)
    (h01 : t₁ ≠ 0) (h02 : t₂ ≠ 0) (hne : t₁ ≠ t₂) :
    generateSessionId c₁ n₁ ≠ generateSessionId c₂ n₂ := by
  apply generateSessionId_ne_of_ts_ne
  rw [h₁, h₂]
  unfold effectiveTimestamp
  simp [h01, h02, hne]

/-- C9 witness: identical configuration, distinct nonzero salts 3 and 4. -/
theorem generateSessionId_ne_of_salts_ne_witness :
    (⟨[], some 3⟩ : ConnConfig).timestamp = some 3 ∧
      (⟨[], some 4⟩ : ConnConfig).timestamp = some 4 ∧
      (3 : Nat) ≠ 0 ∧ (4 : Nat) ≠ 0 ∧ (3 : Nat) ≠ 4 ∧
      generateSessionId ⟨[], some 3⟩ 9 ≠ generateSessionId ⟨[], some 4⟩ 9 :=
  ⟨rfl, rfl, by decide, by decide, by decide,
    generateSessionId_ne_of_salts_ne ⟨[], some 3⟩ ⟨[], some 4⟩ 3 4 9 9
      rfl rfl (by decide) (by decide) (by decide)⟩

set_option maxRecDepth 40000 in
/-- C10: a caller-supplied salt equal to 0 is falsy in
`connectionConfig.timestamp || Date.now()`, so the substituted timestamp is
exactly the one an absent salt gets (the current time) — and consequently,
for salt 0 the derived id is not a pure function of the config and salt:
the same config and salt give different ids at times 1 and 2. -/
theorem generateSessionId_zero_salt_as_absent :
    (∀ now : Nat, effectiveTimestamp (some 0) now = effectiveTimestamp none now) ∧
      generateSessionId ⟨[], some 0⟩ 1 ≠ generateSessionId ⟨[], some 0⟩ 2 :=
  ⟨fun _ => rfl, by decide⟩

end McpSessionManager

namespace McpSessionManager

/-- C6: `cleanup` never raises (it is a total function: a transport-close
failure is caught, logged and changes nothing), and for every handle state
it leaves the handle disconnected with client and transport cleared and the
idle-sweep timer cancelled; a second consecutive call changes nothing
further and performs no additional `transport.close()`. -/
theorem cleanup_idempotent (s : MSess) (b₁ b₂ : Bool) :
    (cleanup s b₁).1.isConnected = false ∧ (cleanup s b₁).1.client = none ∧
    (cleanup s b₁).1.transport = none ∧ (cleanup s b₁).1.cleanupTimer = false ∧
    cleanup s true = cleanup s false ∧
    cleanup (cleanup s b₁).1 b₂ = ((cleanup s b₁).1, false) := by
  cases h : s.transport <;> simp [cleanup, h]

end McpSessionManager

namespace McpSessionManager

/-- C7: `getClient` never raises (total by construction — the validation
rejection is caught) and never reconnects: whenever the handle is not
connected, or the liveness probe fails, it returns `none`; on a probe
failure the state is cleared so that `isSessionConnected` is false
afterwards, and a subsequent `connect` (with a working handshake) runs the
factory and returns the newly constructed client rather than the failed
one. -/
theorem getClient_spec (s : MSess) (ok : Bool) (now : Nat) :
    (¬(s.isConnected = true ∧ s.client.isSome = true) → (getClient s ok now).2 = none) ∧
    (validateConnection s ok = false → (getClient s ok now).2 = none) ∧
    (s.isConnected = true → s.client.isSome = true → validateConnection s ok = false →
      isSessionConnected (getClient s ok now).1 = false ∧
      (s.connPromise = none → ∀ tr lt2 cf cause nc now2,
        (connect (getClient s ok now).1 tr lt2 true cf cause nc now2).2 = Except.ok nc ∧
        (connect (getClient s ok now).1 tr lt2 true cf cause nc now2).1.client = some nc)) := by
  refine ⟨?_, ?_, ?_⟩
  · intro h
    unfold getClient
    rw [if_neg (by tauto)]
  · intro hv
    unfold getClient
    by_cases hc : s.isConnected = true ∧ s.client.isSome = true
    · rw [if_pos hc, if_neg (by simp [hv])]
    · rw [if_neg hc]
  · intro hic hcl hv
    unfold getClient
    rw [if_pos ⟨hic, hcl⟩, if_neg (by simp [hv])]
    constructor
    · simp [isSessionConnected]
    · intro hcp tr lt2 cf cause nc now2
      unfold connect
      rw [if_neg (by simp)]
      simp only [hcp]
      unfold connectFresh doConnect cleanup
      cases ht : s.transport <;> simp [ht]

/-- C7 witness: a connected handle (client 3, transport 4) whose probe
fails; `getClient` clears it, and a fresh `connect` returns the new
client 9. -/
theorem getClient_spec_witness :
    validateConnection ⟨some 3, some 4, true, none, 0, true⟩ false = false ∧
    isSessionConnected (getClient ⟨some 3, some 4, true, none, 0, true⟩ false 6).1 = false ∧
    (connect (getClient ⟨some 3, some 4, true, none, 0, true⟩ false 6).1
        1 false true true 0 9 7).2 = Except.ok 9 :=
  ⟨by decide,
    ((getClient_spec ⟨some 3, some 4, true, none, 0, true⟩ false 6).2.2
      rfl rfl (by decide)).1,
    (((getClient_spec ⟨some 3, some 4, true, none, 0, true⟩ false 6).2.2
      rfl rfl (by decide)).2 rfl 1 false true 0 9 7).1⟩

end McpSessionManager

namespace McpSessionManager

/-- C8: `cleanupAllSessions` invokes `cleanup` on every handle in the
registry (one result per entry, same id), waits for all of them (none can
reject: `cleanup` is total, absorbing close failures — so `Promise.all`
fulfils even when individual closes fail), and leaves the registry empty;
every handle's resource ends cleared, with a `transport.close()` attempted
exactly when the handle held a transport, whatever the close-failure
oracle says. -/
theorem cleanupAllSessions_spec (reg : List (Nat × MSess)) (cf : Nat → Bool) :
    (cleanupAllSessions reg cf).1 = [] ∧
    (cleanupAllSessions reg cf).2.length = reg.length ∧
    ∀ p ∈ reg, ∃ r ∈ (cleanupAllSessions reg cf).2,
      r.1 = p.1 ∧ r.2.1.client = none ∧ r.2.1.transport = none ∧
      r.2.1.isConnected = false ∧ r.2.2 = p.2.transport.isSome := by
  refine ⟨rfl, by simp [cleanupAllSessions], ?_⟩
  intro p hp
  refine ⟨(p.1, cleanup p.2 (cf p.1)), List.mem_map.mpr ⟨p, hp, rfl⟩, rfl, ?_, ?_, ?_, ?_⟩
  all_goals cases ht : p.2.transport <;> simp [cleanup, ht]

/-- C8 witness: one connected session whose close fails; the registry is
emptied and the close was attempted anyway. -/
theorem cleanupAllSessions_spec_witness :
    (1, (⟨some 3, some 4, true, none, 0, true⟩ : MSess)) ∈
      [(1, (⟨some 3, some 4, true, none, 0, true⟩ : MSess))] ∧
    ∃ r ∈ (cleanupAllSessions [(1, (⟨some 3, some 4, true, none, 0, true⟩ : MSess))]
        (fun _ => true)).2,
      r.1 = (1, (⟨some 3, some 4, true, none, 0, true⟩ : MSess)).1 ∧
      r.2.1.client = none ∧ r.2.1.transport = none ∧ r.2.1.isConnected = false ∧
      r.2.2 = (1, (⟨some 3, some 4, true, none, 0, true⟩ : MSess)).2.transport.isSome :=
  ⟨by simp,
    (cleanupAllSessions_spec [(1, ⟨some 3, some 4, true, none, 0, true⟩)]
      (fun _ => true)).2.2 (1, ⟨some 3, some 4, true, none, 0, true⟩) (by simp)⟩

end McpSessionManager

namespace McpSessionManager

/-- Running the expired-id loop over a registry containing all the (distinct)
ids deletes exactly those entries and records exactly those ids as
cleaned. -/
theorem sweep_foldl (cf : Nat → Bool) :
    ∀ (ids : List Nat) (acc : List (Nat × MSess)) (done : List Nat),
      ids.Nodup → (∀ sid ∈ ids, ∃ p ∈ acc, p.1 = sid) →
      ids.foldl (sweepStep cf) (acc, done) =
        (acc.filter (fun q => decide (q.1 ∉ ids)), done ++ ids) := by
  intro ids
  induction ids with
  | nil =>
    intro acc done _ _
    simp
  | cons sid ids ih =>
    intro acc done hnd hall
    obtain ⟨p, hp, hps⟩ := hall sid (by simp)
    have hfind : (acc.find? (fun r => r.1 == sid)).isSome := by
      rw [List.find?_isSome]
      exact ⟨p, hp, by simpa using hps⟩
    obtain ⟨q, hq⟩ := Option.isSome_iff_exists.mp hfind
    have hstep : sweepStep cf (acc, done) sid =
        (acc.filter fun r => r.1 != sid, done ++ [sid]) := by
      unfold sweepStep
      rw [hq]
    simp only [List.foldl_cons, hstep]
    rw [ih _ _ (List.nodup_cons.mp hnd).2 ?side]
    case side =>
      intro sid' hsid'
      obtain ⟨p', hp', hps'⟩ := hall sid' (by simp [hsid'])
      refine ⟨p', List.mem_filter.mpr ⟨hp', ?_⟩, hps'⟩
      have hne : sid' ≠ sid := by
        intro h
        subst h
        exact (List.nodup_cons.mp hnd).1 hsid'
      simp [hps', hne]
    congr 1
    · rw [List.filter_filter]
      apply List.filter_congr
      intro r _
      by_cases h1 : r.1 = sid <;> by_cases h2 : r.1 ∈ ids <;> simp [h1, h2]
    · simp

/-- C5: a reaper sweep at time `now` removes from the registry exactly the
handles idle for more than `SESSION_TIMEOUT` (strictly), invoking `cleanup`
on each of them (fire-and-forget, so a cleanup failure — any `closeFails`
oracle — never prevents the removal); handles within the timeout remain
registered; and the sweep reschedules itself iff the registry is still
non-empty afterwards. -/
theorem checkAndCleanupExpiredSessions_spec (now : Nat) (reg : List (Nat × MSess))
    (cf : Nat → Bool) (hnd : (reg.map Prod.fst).Nodup) :
    (checkAndCleanupExpiredSessions now reg cf).1 =
      reg.filter (fun p => decide (now - p.2.lastUsed ≤ SESSION_TIMEOUT)) ∧
    (checkAndCleanupExpiredSessions now reg cf).2.1 =
      (reg.filter (fun p => decide (SESSION_TIMEOUT < now - p.2.lastUsed))).map Prod.fst ∧
    ((checkAndCleanupExpiredSessions now reg cf).2.2 = true ↔
      (checkAndCleanupExpiredSessions now reg cf).1 ≠ []) := by
  have hnd2 : ((reg.filter fun p =>
      decide (SESSION_TIMEOUT < now - p.2.lastUsed)).map Prod.fst).Nodup :=
    hnd.sublist ((List.filter_sublist reg).map Prod.fst)
  have hall : ∀ sid ∈ (reg.filter fun p =>
      decide (SESSION_TIMEOUT < now - p.2.lastUsed)).map Prod.fst, ∃ p ∈ reg, p.1 = sid := by
    intro sid hsid
    obtain ⟨p, hp, rfl⟩ := List.mem_map.mp hsid
    exact ⟨p, (List.mem_filter.mp hp).1, rfl⟩
  have hinj := List.inj_on_of_nodup_map hnd
  have hfold := sweep_foldl cf
    ((reg.filter fun p => decide (SESSION_TIMEOUT < now - p.2.lastUsed)).map Prod.fst)
    reg [] hnd2 hall
  unfold checkAndCleanupExpiredSessions
  simp only [hfold]
  refine ⟨?_, by simp, ?_⟩
  · apply List.filter_congr
    intro q hq
    by_cases hexp : SESSION_TIMEOUT < now - q.2.lastUsed
    · have hmem : q.1 ∈ (reg.filter fun p =>
          decide (SESSION_TIMEOUT < now - p.2.lastUsed)).map Prod.fst :=
        List.mem_map.mpr ⟨q, List.mem_filter.mpr ⟨hq, by simpa using hexp⟩, rfl⟩
      simp [hmem, hexp, Nat.not_le.mpr hexp]
    · have hmem : q.1 ∉ (reg.filter fun p =>
          decide (SESSION_TIMEOUT < now - p.2.lastUsed)).map Prod.fst := by
        intro hmem
        obtain ⟨p, hp, hpq⟩ := List.mem_map.mp hmem
        obtain ⟨hpreg, hptime⟩ := List.mem_filter.mp hp
        have : p = q := hinj hpreg hq hpq
        subst this
        exact hexp (by simpa using hptime)
      simp [hmem, Nat.le_of_not_lt hexp]
  · simp [List.length_pos]

/-- C5 witness: ids 1 (idle since 0, expired at `now = 2000000`) and 2
(recently used) with a failing close; the sweep drops exactly id 1, cleans
exactly id 1, and reschedules because id 2 remains. -/
theorem checkAndCleanupExpiredSessions_spec_witness :
    (([(1, (⟨some 3, some 4, true, none, 0, true⟩ : MSess)),
       (2, (⟨none, none, false, none, 1999999, true⟩ : MSess))].map Prod.fst).Nodup) ∧
    ((checkAndCleanupExpiredSessions 2000000
        [(1, ⟨some 3, some 4, true, none, 0, true⟩),
         (2, ⟨none, none, false, none, 1999999, true⟩)] (fun _ => true)).1 =
      [(1, (⟨some 3, some 4, true, none, 0, true⟩ : MSess)),
       (2, (⟨none, none, false, none, 1999999, true⟩ : MSess))].filter
        (fun p => decide (2000000 - p.2.lastUsed ≤ SESSION_TIMEOUT)) ∧
     (checkAndCleanupExpiredSessions 2000000
        [(1, ⟨some 3, some 4, true, none, 0, true⟩),
         (2, ⟨none, none, false, none, 1999999, true⟩)] (fun _ => true)).2.1 =
      ([(1, (⟨some 3, some 4, true, none, 0, true⟩ : MSess)),
        (2, (⟨none, none, false, none, 1999999, true⟩ : MSess))].filter
        (fun p => decide (SESSION_TIMEOUT < 2000000 - p.2.lastUsed))).map Prod.fst ∧
     ((checkAndCleanupExpiredSessions 2000000
        [(1, ⟨some 3, some 4, true, none, 0, true⟩),
         (2, ⟨none, none, false, none, 1999999, true⟩)] (fun _ => true)).2.2 = true ↔
      (checkAndCleanupExpiredSessions 2000000
        [(1, ⟨some 3, some 4, true, none, 0, true⟩),
         (2, ⟨none, none, false, none, 1999999, true⟩)] (fun _ => true)).1 ≠ [])) :=
  ⟨by decide,
    checkAndCleanupExpiredSessions_spec 2000000
      [(1, ⟨some 3, some 4, true, none, 0, true⟩),
       (2, ⟨none, none, false, none, 1999999, true⟩)] (fun _ => true) (by decide)⟩

end McpSessionManager

namespace McpSessionManager

/-- `connect` preserves the client half of the resource invariant. -/
theorem connect_clientInvariant (s : MSess) (tr : Nat) (lt hs cf : Bool)
    (cause nc now : Nat) (h : clientInvariant s) :
    clientInvariant (connect s tr lt hs cf cause nc now).1 := by
  unfold clientInvariant at *
  unfold connect connectFresh doConnect cleanup
  rcases htr : s.transport with _ | t <;>
    rcases hcp : s.connPromise with _ | (e | u) <;>
    repeat' split <;>
    try simp_all

/-- `getClient` preserves the client half of the resource invariant. -/
theorem getClient_clientInvariant (s : MSess) (lt : Bool) (now : Nat)
    (h : clientInvariant s) : clientInvariant (getClient s lt now).1 := by
  unfold clientInvariant at *
  unfold getClient
  repeat' split
  all_goals simp_all

/-- `getClientSync` preserves the client half of the resource invariant. -/
theorem getClientSync_clientInvariant (s : MSess) (now : Nat)
    (h : clientInvariant s) : clientInvariant (getClientSync s now).1 := by
  unfold clientInvariant at *
  unfold getClientSync
  repeat' split
  all_goals simp_all

/-- Entries surviving the expired-id loop were in the registry before it. -/
theorem sweep_acc_subset (cf : Nat → Bool) (ids : List Nat) :
    ∀ (acc : List (Nat × MSess)) (done : List Nat) (q : Nat × MSess),
      q ∈ (ids.foldl (sweepStep cf) (acc, done)).1 → q ∈ acc := by
  induction ids with
  | nil =>
    intro acc done q h
    simpa using h
  | cons sid ids ih =>
    intro acc done q h
    simp only [List.foldl_cons] at h
    rcases hfind : acc.find? (fun r => r.1 == sid) with _ | p
    · rw [show sweepStep cf (acc, done) sid = (acc, done) from by
        unfold sweepStep; rw [hfind]] at h
      exact ih acc done q h
    · rw [show sweepStep cf (acc, done) sid =
          (acc.filter fun r => r.1 != sid, done ++ [sid]) from by
        unfold sweepStep; rw [hfind]] at h
      exact (List.mem_filter.mp (ih _ _ q h)).1

set_option maxRecDepth 4000 in
/-- C3 counterexample: the full resource invariant ("not Connected implies
client and transport both cleared") is **not** preserved: starting from a
freshly connected handle (reachable by one successful `connect` from the
pristine state), a `getClient` whose probe fails clears `isConnected` and
`client` but leaves the stale `transport` reference in place. -/
theorem sessionInvariant_not_preserved :
    sessionInvariant (connect ⟨none, none, false, none, 0, true⟩ 20 true true false 0 10 5).1 ∧
    ¬ sessionInvariant
        (getClient (connect ⟨none, none, false, none, 0, true⟩ 20 true true false 0 10 5).1
          false 6).1 := by
  constructor
  · decide
  · decide

/-- C3 (amended): every operation — `connect`, `getClient`, `getClientSync`,
`cleanup`, and the reaper sweep — preserves the client half of the
invariant: whenever a handle is not Connected its client reference is
cleared. (The transport half fails: the validation-failure paths of
`connect` and `getClient` retain the transport, as the counterexample
shows; only `cleanup`, `doConnect`'s failure path and the part_000
transport error observer clear it.) -/
theorem clientInvariant_preserved :
    (∀ (s : MSess) (tr : Nat) (lt hs cf : Bool) (cause nc now : Nat),
      clientInvariant s → clientInvariant (connect s tr lt hs cf cause nc now).1) ∧
    (∀ (s : MSess) (lt : Bool) (now : Nat),
      clientInvariant s → clientInvariant (getClient s lt now).1) ∧
    (∀ (s : MSess) (now : Nat),
      clientInvariant s → clientInvariant (getClientSync s now).1) ∧
    (∀ (s : MSess) (cf : Bool), clientInvariant (cleanup s cf).1) ∧
    (∀ (now : Nat) (reg : List (Nat × MSess)) (cf : Nat → Bool),
      (∀ p ∈ reg, clientInvariant p.2) →
      ∀ q ∈ (checkAndCleanupExpiredSessions now reg cf).1, clientInvariant q.2) := by
  refine ⟨connect_clientInvariant, getClient_clientInvariant,
    getClientSync_clientInvariant, ?_, ?_⟩
  · intro s cf
    unfold clientInvariant cleanup
    rcases htr : s.transport with _ | t <;> simp
  · intro now reg cf hall q hq
    exact hall q (sweep_acc_subset cf _ reg [] q hq)

/-- C3 amended-claim witness: a handle that fails validation inside
`getClient` still satisfies the client half, and a swept registry keeps
it. -/
theorem clientInvariant_preserved_witness :
    clientInvariant (⟨some 3, some 4, true, none, 0, true⟩ : MSess) ∧
    clientInvariant (getClient ⟨some 3, some 4, true, none, 0, true⟩ false 6).1 ∧
    (∀ p ∈ [(1, (⟨none, none, false, none, 0, true⟩ : MSess))], clientInvariant p.2) ∧
    (∀ q ∈ (checkAndCleanupExpiredSessions 100
        [(1, (⟨none, none, false, none, 0, true⟩ : MSess))] (fun _ => false)).1,
      clientInvariant q.2) :=
  ⟨by decide,
    clientInvariant_preserved.2.1 ⟨some 3, some 4, true, none, 0, true⟩ false 6 (by decide),
    by decide,
    clientInvariant_preserved.2.2.2.2 100
      [(1, ⟨none, none, false, none, 0, true⟩)] (fun _ => false) (by decide)⟩

end McpSessionManager
